import Mathlib

/-!
Verification of the PDF export pipeline of the `medicalbydrtamara` repository.

The embedded code lives in `src/utils/pdfUtils.ts` (functions
`generateAndSharePdf` and `smartPaginate`) and in
`src/components/LessonView.tsx` (`generateHighQualityPdf`, `handleShare`).
DOM-measured block heights and millimetre lengths are JavaScript numbers;
they are modelled here as exact rationals (`ℚ`), with `Math.floor` as
`Int.floor`.
-/

namespace MedPdf

/-- The fixed page-height threshold of `smartPaginate`
(`const PAGE_HEIGHT = 1050`, src/utils/pdfUtils.ts line 100). -/
def PAGE_HEIGHT : ℚ := 1050

/-- The margin decision of one iteration of the `smartPaginate` loop
(src/utils/pdfUtils.ts lines 108-133), for a block whose (pre-adjustment)
top edge sits at `startY` and whose measured height is `sectionHeight`:
zero-height sections are skipped (`continue`), a section with
`startPage !== endPage` and `sectionHeight < PAGE_HEIGHT` gets
`marginTop = (startPage + 1) * PAGE_HEIGHT - startY`, every other
section's margin is left at 0. -/
def blockMargin (pageH startY sectionHeight : ℚ) : ℚ :=
  if sectionHeight = 0 then 0
  else
    let startPage := ⌊startY / pageH⌋
    let endPage := ⌊(startY + sectionHeight) / pageH⌋
    if startPage ≠ endPage ∧ sectionHeight < pageH then
      (startPage + 1) * pageH - startY
    else 0

/-- The `smartPaginate` loop (src/utils/pdfUtils.ts lines 102-136) over the
list of measured section heights, carrying the running cursor
`currentHeight`: each step emits the block's margin and advances the cursor
by `pushDown + sectionHeight` (the code does `currentHeight += pushDown`
inside the branch and `currentHeight += sectionHeight` afterwards). -/
def smartPaginateGo (pageH : ℚ) : ℚ → List ℚ → List ℚ
  | _, [] => []
  | currentHeight, sectionHeight :: rest =>
    let m := blockMargin pageH currentHeight sectionHeight
    m :: smartPaginateGo pageH (currentHeight + m + sectionHeight) rest

/-- Function `smartPaginate` (src/utils/pdfUtils.ts lines 96-137): the list
of `marginTop` adjustments it assigns to the element's children, given their
measured heights, starting from `currentHeight = 0`. -/
def smartPaginate (heights : List ℚ) : List ℚ :=
  smartPaginateGo PAGE_HEIGHT 0 heights

/-- Adjusted (post-margin) top position of block `i`: the sum of all margins
up to and including block `i` plus the heights of all earlier blocks —
exactly the position block `i` occupies in the DOM once every computed
`marginTop` is applied, and equal to the loop cursor at block `i` plus
block `i`'s own margin. -/
def adjStart (margins heights : List ℚ) (i : ℕ) : ℚ :=
  (margins.take (i + 1)).sum + (heights.take i).sum

/-- The unused `spacerHeight` formula of the pushdown branch
(src/utils/pdfUtils.ts line 124): `(endPage * PAGE_HEIGHT) - startY`. -/
def spacerHeight (pageH startY endY : ℚ) : ℚ :=
  ⌊endY / pageH⌋ * pageH - startY

/-- The applied `pushDown` formula of the pushdown branch
(src/utils/pdfUtils.ts line 126): `(startPage + 1) * PAGE_HEIGHT - startY`. -/
def pushDown (pageH startY : ℚ) : ℚ :=
  (⌊startY / pageH⌋ + 1) * pageH - startY

/-! ### Page slicer (src/utils/pdfUtils.ts lines 51-70 and
src/components/LessonView.tsx lines 103-121) -/

/-- A4 page height in millimetres (`const pageHeight = 297`). -/
def pageHeightMm : ℚ := 297

/-- Number of iterations of the `while (heightLeft > 0)` loop, each of which
does one `doc.addPage()` and subtracts `pageHeight` from `heightLeft`. -/
def slicerLoop (heightLeft : ℚ) : ℕ :=
  if 0 < heightLeft then slicerLoop (heightLeft - pageHeightMm) + 1 else 0
termination_by (⌈heightLeft / pageHeightMm⌉).toNat
decreasing_by
  rename_i hpos
  have hstep : (heightLeft - pageHeightMm) / pageHeightMm =
      heightLeft / pageHeightMm - 1 := by
    rw [pageHeightMm]; ring
  have hceil : ⌈(heightLeft - pageHeightMm) / pageHeightMm⌉ =
      ⌈heightLeft / pageHeightMm⌉ - 1 := by
    rw [hstep]
    exact_mod_cast Int.ceil_sub_int (heightLeft / pageHeightMm) 1
  have hone : 1 ≤ ⌈heightLeft / pageHeightMm⌉ :=
    Int.ceil_pos.mpr (div_pos hpos (by norm_num [pageHeightMm]))
  omega

/-- Total number of pages in the assembled PDF: the document's initial page
(on which the first `addImage` is drawn, after which `heightLeft -=
pageHeight`) plus one `addPage` per loop iteration. -/
def pageCount (imgHeightMm : ℚ) : ℕ :=
  1 + slicerLoop (imgHeightMm - pageHeightMm)

/-! ### Delivery filenames (src/utils/pdfUtils.ts lines 73 and 83) -/

/-- JS `title.replace(/\s+/g, '_')`: every maximal run of whitespace
characters is replaced by a single underscore. -/
def replaceWsRuns : List Char → List Char
  | [] => []
  | c :: rest =>
    if c.isWhitespace then
      match rest with
      | [] => ['_']
      | d :: _ =>
        if d.isWhitespace then replaceWsRuns rest
        else '_' :: replaceWsRuns rest
    else c :: replaceWsRuns rest

/-- String form of the whitespace-run replacement. -/
def sanitizeSpaces (s : String) : String :=
  String.mk (replaceWsRuns s.data)

/-- Filename used on the share path (src/utils/pdfUtils.ts line 73):
`${lesson.content.title.replace(/\s+/g, '_')}.pdf`. -/
def shareFileName (title : String) : String :=
  sanitizeSpaces title ++ ".pdf"

/-- Filename used on the local-download fallback path
(src/utils/pdfUtils.ts line 83): `doc.save(`${lesson.content.title}.pdf`)`,
the raw title with no character stripped or replaced. -/
def fallbackFileName (title : String) : String :=
  title ++ ".pdf"

/-! ### Error flow of the export operation

`generateAndSharePdf` (src/utils/pdfUtils.ts lines 5-93) aborts with a
`console.error` and no thrown error when the render target is missing,
re-throws (after a `console.error`) any error raised by capture, assembly
or sharing, and otherwise delivers the document by native share or by
download.  `handleShare` (src/unnamed/part_000 lines 100-110) awaits it in
a `try`/`catch` that turns a thrown error into exactly one `alert`.  The
browser effects (DOM lookup, html2canvas, `navigator.share`) are modelled
as explicit fallible inputs. -/

/-- An error thrown inside the `try` block of `generateAndSharePdf`. -/
inductive PdfError where
  | captureFailed
  | assemblyFailed
  | shareRejected
deriving DecidableEq

/-- How the document left the pipeline, when it did. -/
inductive Delivery where
  | shared
  | downloaded
deriving DecidableEq

/-- Result of `generateAndSharePdf`: either a thrown error, or normal
return with the delivery that happened (`none` on the missing-target
abort), together with the number of `console.error` calls made. -/
structure GenResult where
  outcome : Except PdfError (Option Delivery)
  consoleErrors : ℕ

/-- Control flow of `generateAndSharePdf` (src/utils/pdfUtils.ts lines
5-93): missing render target logs and returns before any work; a capture
or share error is logged and re-thrown; otherwise the file is shared when
`navigator.canShare({files})` holds and downloaded otherwise. -/
def generateSharePdfFlow (hasTarget : Bool) (capture : Except PdfError Unit)
    (canShareFiles : Bool) (share : Except PdfError Unit) : GenResult :=
  if !hasTarget then { outcome := .ok none, consoleErrors := 1 }
  else
    match capture with
    | .error e => { outcome := .error e, consoleErrors := 1 }
    | .ok _ =>
      if canShareFiles then
        match share with
        | .error e => { outcome := .error e, consoleErrors := 1 }
        | .ok _ => { outcome := .ok (some .shared), consoleErrors := 0 }
      else { outcome := .ok (some .downloaded), consoleErrors := 0 }

/-- What the user sees after `handleShare` ran. -/
structure ShareResult where
  alerts : ℕ
  delivered : Option Delivery
deriving DecidableEq

/-- The `try`/`catch` of `handleShare` (src/unnamed/part_000 lines
100-110): a thrown error becomes exactly one `alert` and nothing is
delivered; a normal return shows no alert. -/
def handleShareFlow (g : GenResult) : ShareResult :=
  match g.outcome with
  | .error _ => { alerts := 1, delivered := none }
  | .ok d => { alerts := 0, delivered := d }

/-! ### Arithmetic helper lemmas about page indices -/

lemma lt_floor_succ_mul {pageH : ℚ} (hP : 0 < pageH) (s : ℚ) :
    s < ((⌊s / pageH⌋ : ℚ) + 1) * pageH := by
  have h := Int.lt_floor_add_one (s / pageH)
  calc s = s / pageH * pageH := by field_simp
    _ < ((⌊s / pageH⌋ : ℚ) + 1) * pageH := by
        exact mul_lt_mul_of_pos_right h hP

lemma floor_mul_le_self {pageH : ℚ} (hP : 0 < pageH) (s : ℚ) :
    (⌊s / pageH⌋ : ℚ) * pageH ≤ s := by
  have h := Int.floor_le (s / pageH)
  calc (⌊s / pageH⌋ : ℚ) * pageH ≤ s / pageH * pageH :=
        mul_le_mul_of_nonneg_right h hP.le
    _ = s := by field_simp

lemma floor_div_self_of_lt {pageH h : ℚ} (hP : 0 < pageH) (h0 : 0 ≤ h)
    (hlt : h < pageH) : ⌊h / pageH⌋ = 0 := by
  rw [Int.floor_eq_zero_iff]
  constructor
  · exact div_nonneg h0 hP.le
  · exact (div_lt_one hP).mpr hlt

lemma floor_intMul_add_div {pageH : ℚ} (hP : 0 < pageH) (k : ℤ) (h : ℚ) :
    ⌊((k : ℚ) * pageH + h) / pageH⌋ = k + ⌊h / pageH⌋ := by
  have hne : pageH ≠ 0 := hP.ne'
  have : ((k : ℚ) * pageH + h) / pageH = (k : ℚ) + h / pageH := by
    field_simp
  rw [this, Int.floor_int_add]

/-- A block of nonnegative height below one page ends on the same page it
starts on, or on the next one. -/
lemma floor_add_div_le_succ {pageH : ℚ} (hP : 0 < pageH) (s h : ℚ)
    (h0 : 0 ≤ h) (hlt : h < pageH) :
    ⌊s / pageH⌋ ≤ ⌊(s + h) / pageH⌋ ∧
      ⌊(s + h) / pageH⌋ ≤ ⌊s / pageH⌋ + 1 := by
  constructor
  · exact Int.floor_mono ((div_le_div_iff_of_pos_right hP).mpr (by linarith))
  · have h1 : (s + h) / pageH ≤ (s + pageH) / pageH :=
      (div_le_div_iff_of_pos_right hP).mpr (by linarith)
    have h2 : (s + pageH) / pageH = s / pageH + 1 := by field_simp
    have h3 : ⌊(s + h) / pageH⌋ ≤ ⌊s / pageH + 1⌋ := by
      rw [← h2]; exact Int.floor_mono h1
    simpa using h3

/-! ### Per-block facts about the margin decision -/

/-- Unfolding of `blockMargin` with the `let`-bound page indices inlined. -/
lemma blockMargin_def (pageH s h : ℚ) :
    blockMargin pageH s h =
      if h = 0 then 0
      else if ⌊s / pageH⌋ ≠ ⌊(s + h) / pageH⌋ ∧ h < pageH then
        ((⌊s / pageH⌋ : ℚ) + 1) * pageH - s
      else 0 := rfl

/-- In the pushdown branch the block is moved to the start of the next page:
its new top edge is `(startPage + 1) * pageH`. -/
lemma blockMargin_push {pageH s h : ℚ}
    (hne : ⌊s / pageH⌋ ≠ ⌊(s + h) / pageH⌋) (hlt : h < pageH) (h0 : h ≠ 0) :
    blockMargin pageH s h = ((⌊s / pageH⌋ : ℚ) + 1) * pageH - s := by
  rw [blockMargin, if_neg h0, if_pos ⟨hne, hlt⟩]

lemma blockMargin_no_push {pageH s h : ℚ}
    (heq : ⌊s / pageH⌋ = ⌊(s + h) / pageH⌋) :
    blockMargin pageH s h = 0 := by
  rw [blockMargin]
  split
  · rfl
  · rw [if_neg]
    intro hc
    exact hc.1 heq

/-- A block at least one page tall is never touched. -/
lemma blockMargin_tall {pageH s h : ℚ} (hge : pageH ≤ h) :
    blockMargin pageH s h = 0 := by
  rw [blockMargin]
  split
  · rfl
  · rw [if_neg]
    intro hc
    exact absurd hc.2 (not_lt.mpr hge)

/-- After applying its own margin, a block of nonnegative height below one
page starts and ends on the same page. -/
lemma blockMargin_aligned {pageH s h : ℚ} (hP : 0 < pageH) (h0 : 0 ≤ h)
    (hlt : h < pageH) :
    ⌊(s + blockMargin pageH s h) / pageH⌋ =
      ⌊(s + blockMargin pageH s h + h) / pageH⌋ := by
  by_cases hz : h = 0
  · subst hz; rw [add_zero]
  by_cases hne : ⌊s / pageH⌋ ≠ ⌊(s + h) / pageH⌋
  · rw [blockMargin_push hne hlt hz]
    have hstart : s + (((⌊s / pageH⌋ : ℚ) + 1) * pageH - s) =
        ((⌊s / pageH⌋ + 1 : ℤ) : ℚ) * pageH := by push_cast; ring
    rw [hstart]
    have e1 : ⌊((⌊s / pageH⌋ + 1 : ℤ) : ℚ) * pageH / pageH⌋ =
        ⌊s / pageH⌋ + 1 := by
      rw [mul_div_cancel_right₀ _ hP.ne', Int.floor_intCast]
    have e2 : ⌊(((⌊s / pageH⌋ + 1 : ℤ) : ℚ) * pageH + h) / pageH⌋ =
        ⌊s / pageH⌋ + 1 := by
      rw [floor_intMul_add_div hP, floor_div_self_of_lt hP h0 hlt, add_zero]
    rw [e1, e2]
  · push_neg at hne
    rw [blockMargin_no_push hne, add_zero]
    exact hne

/-- Re-running the margin decision at the already-adjusted position of a
block assigns it no further margin. -/
lemma blockMargin_idem {pageH s h : ℚ} (hP : 0 < pageH) (h0 : 0 ≤ h) :
    blockMargin pageH (s + blockMargin pageH s h) h = 0 := by
  by_cases hlt : h < pageH
  · exact blockMargin_no_push (blockMargin_aligned hP h0 hlt)
  · exact blockMargin_tall (not_lt.mp hlt)

/-- Every margin the planner assigns is nonnegative, and a nonzero margin is
strictly positive, at most one page, and moves the block's top edge exactly
to a page boundary. -/
lemma blockMargin_bounds {pageH s h : ℚ} (hP : 0 < pageH) :
    0 ≤ blockMargin pageH s h ∧
      (blockMargin pageH s h ≠ 0 →
        0 < blockMargin pageH s h ∧ blockMargin pageH s h ≤ pageH ∧
          ∃ k : ℤ, s + blockMargin pageH s h = (k : ℚ) * pageH) := by
  rw [blockMargin_def]
  split
  · exact ⟨le_rfl, fun hc => absurd rfl hc⟩
  split
  · refine ⟨?_, fun _ => ⟨?_, ?_, ⟨⌊s / pageH⌋ + 1, ?_⟩⟩⟩
    · have := lt_floor_succ_mul hP s
      linarith
    · have := lt_floor_succ_mul hP s
      linarith
    · have := floor_mul_le_self hP s
      linarith
    · push_cast; ring
  · exact ⟨le_rfl, fun hc => absurd rfl hc⟩

/-! ### The loop computes `blockMargin` at the running cursor -/

lemma smartPaginateGo_length (pageH : ℚ) (cur : ℚ) (hs : List ℚ) :
    (smartPaginateGo pageH cur hs).length = hs.length := by
  induction hs generalizing cur with
  | nil => rfl
  | cons a t ih => simp [smartPaginateGo, ih]

lemma sum_take_succ_get (l : List ℚ) (i : ℕ) (hi : i < l.length) :
    (l.take (i + 1)).sum = (l.take i).sum + l.get ⟨i, hi⟩ := by
  induction l generalizing i with
  | nil => simp at hi
  | cons a t ih =>
    cases i with
    | zero => simp
    | succ j =>
      have hj : j < t.length := by simpa using hi
      simp [List.take_succ_cons, ih j hj]
      ring

/-- Block `i`'s margin is the margin decision taken at the running cursor,
which equals `cur` plus all earlier margins and heights. -/
lemma smartPaginateGo_get (pageH : ℚ) (hs : List ℚ) :
    ∀ (cur : ℚ) (i : ℕ) (hi : i < hs.length),
      (smartPaginateGo pageH cur hs).get
          ⟨i, by rw [smartPaginateGo_length]; exact hi⟩ =
        blockMargin pageH
          (cur + ((smartPaginateGo pageH cur hs).take i).sum +
            (hs.take i).sum)
          (hs.get ⟨i, hi⟩) := by
  induction hs with
  | nil => intro cur i hi; simp at hi
  | cons a t ih =>
    intro cur i hi
    cases i with
    | zero =>
      simp [smartPaginateGo]
    | succ j =>
      have hj : j < t.length := by simpa using hi
      have step := ih (cur + blockMargin pageH cur a + a) j hj
      simp only [smartPaginateGo, List.get_cons_succ, List.take_succ_cons,
        List.sum_cons] at step ⊢
      rw [step]
      congr 1
      ring

lemma PAGE_HEIGHT_pos : (0 : ℚ) < PAGE_HEIGHT := by norm_num [PAGE_HEIGHT]

lemma smartPaginate_length (hs : List ℚ) :
    (smartPaginate hs).length = hs.length :=
  smartPaginateGo_length PAGE_HEIGHT 0 hs

/-- The planner's margin for block `i`, as the margin decision taken at the
block's pre-push position (earlier margins plus earlier heights). -/
lemma smartPaginate_get (hs : List ℚ) (i : ℕ) (hi : i < hs.length) :
    (smartPaginate hs).get ⟨i, by rw [smartPaginate_length]; exact hi⟩ =
      blockMargin PAGE_HEIGHT
        (((smartPaginate hs).take i).sum + (hs.take i).sum)
        (hs.get ⟨i, hi⟩) := by
  have h := smartPaginateGo_get PAGE_HEIGHT hs 0 i hi
  simpa [smartPaginate] using h

/-- The adjusted start of block `i` is its pre-push position plus its own
margin. -/
lemma adjStart_eq (hs : List ℚ) (i : ℕ) (hi : i < hs.length) :
    adjStart (smartPaginate hs) hs i =
      (((smartPaginate hs).take i).sum + (hs.take i).sum) +
        (smartPaginate hs).get ⟨i, by rw [smartPaginate_length]; exact hi⟩ := by
  rw [adjStart, sum_take_succ_get (smartPaginate hs) i
    (by rw [smartPaginate_length]; exact hi)]
  ring

/-! ### Slicer loop arithmetic -/

/-- The slicer loop runs `max 0 ⌈x / 297⌉` times when started with
`heightLeft = x`. -/
lemma slicerLoop_eq (x : ℚ) : slicerLoop x = (⌈x / pageHeightMm⌉).toNat := by
  induction x using slicerLoop.induct with
  | case1 x hpos ih =>
    rw [slicerLoop, if_pos hpos, ih]
    have hstep : (x - pageHeightMm) / pageHeightMm =
        x / pageHeightMm - 1 := by
      rw [pageHeightMm]; ring
    have hceil : ⌈(x - pageHeightMm) / pageHeightMm⌉ =
        ⌈x / pageHeightMm⌉ - 1 := by
      rw [hstep]
      exact_mod_cast Int.ceil_sub_int (x / pageHeightMm) 1
    have hone : 1 ≤ ⌈x / pageHeightMm⌉ :=
      Int.ceil_pos.mpr (div_pos hpos (by norm_num [pageHeightMm]))
    rw [hceil]
    omega
  | case2 x hpos =>
    rw [slicerLoop, if_neg hpos]
    have : ⌈x / pageHeightMm⌉ ≤ 0 := by
      apply Int.ceil_le.mpr
      push_cast
      exact div_nonpos_of_nonpos_of_nonneg (not_lt.mp hpos)
        (by norm_num [pageHeightMm])
    omega

/-! ## The claims -/

/-- C1: for every sequence of block heights and the fixed `PAGE_HEIGHT`,
after `smartPaginate`'s margins are applied no block of (nonnegative)
height strictly less than `PAGE_HEIGHT` straddles a page boundary:
`⌊adjustedStartY / PAGE_HEIGHT⌋ = ⌊adjustedEndY / PAGE_HEIGHT⌋`, where
adjusted positions account for all earlier pushdowns via the running
cursor. -/
theorem C1_no_small_block_straddles (hs : List ℚ) (i : ℕ)
    (hi : i < hs.length) (h0 : 0 ≤ hs.get ⟨i, hi⟩)
    (hlt : hs.get ⟨i, hi⟩ < PAGE_HEIGHT) :
    ⌊adjStart (smartPaginate hs) hs i / PAGE_HEIGHT⌋ =
      ⌊(adjStart (smartPaginate hs) hs i + hs.get ⟨i, hi⟩) /
        PAGE_HEIGHT⌋ := by
  rw [adjStart_eq hs i hi, smartPaginate_get hs i hi]
  exact blockMargin_aligned PAGE_HEIGHT_pos h0 hlt

/-- Witness for C1 at heights `[400, 800, 300]`, block 1 (height 800). -/
theorem C1_witness :
    ⌊adjStart (smartPaginate [400, 800, 300]) [400, 800, 300] 1 /
        PAGE_HEIGHT⌋ =
      ⌊(adjStart (smartPaginate [400, 800, 300]) [400, 800, 300] 1 +
          ([400, 800, 300] : List ℚ).get ⟨1, by norm_num⟩) /
        PAGE_HEIGHT⌋ :=
  C1_no_small_block_straddles [400, 800, 300] 1 (by norm_num)
    (by norm_num) (by norm_num [PAGE_HEIGHT])

/-- C2, as stated by the spec, is false: a block whose `endY` is an exact
multiple of `PAGE_HEIGHT` does count as crossing (`Math.floor` sends the
exact multiple to the next page index) and does receive a pushdown margin.
Concretely, for heights `[400, 650]` the second block spans 400–1050 with
`endY = 1050 = 1 * PAGE_HEIGHT`, yet `smartPaginate` assigns it margin
650, not 0. -/
theorem C2_counterexample :
    (400 : ℚ) + 650 = 1 * PAGE_HEIGHT ∧
      blockMargin PAGE_HEIGHT 400 650 = 650 ∧ (650 : ℚ) ≠ 0 ∧
      smartPaginate [400, 650] = [0, 650] := by
  refine ⟨by norm_num [PAGE_HEIGHT], ?_, by norm_num, ?_⟩
  · norm_num [blockMargin_def, PAGE_HEIGHT]
  · norm_num [smartPaginate, smartPaginateGo, blockMargin_def, PAGE_HEIGHT]

/-- C2 (amended): a block of positive height `h < PAGE_HEIGHT` whose end
lands exactly on a page boundary (`startY + h = k * PAGE_HEIGHT`) counts as
crossing that boundary (`endPage = startPage + 1`) and receives pushdown
margin equal to its own height, so it is pushed to start exactly at the
boundary. -/
theorem C2_boundary_block_is_pushed (s h : ℚ) (hpos : 0 < h)
    (hlt : h < PAGE_HEIGHT) (k : ℤ)
    (hb : s + h = (k : ℚ) * PAGE_HEIGHT) :
    ⌊(s + h) / PAGE_HEIGHT⌋ = ⌊s / PAGE_HEIGHT⌋ + 1 ∧
      blockMargin PAGE_HEIGHT s h = h := by
  have hP := PAGE_HEIGHT_pos
  have hend : ⌊(s + h) / PAGE_HEIGHT⌋ = k := by
    rw [hb, mul_div_cancel_right₀ _ hP.ne', Int.floor_intCast]
  have hdiv1 : h / PAGE_HEIGHT < 1 := (div_lt_one hP).mpr hlt
  have hdiv0 : 0 < h / PAGE_HEIGHT := div_pos hpos hP
  have hsP : s / PAGE_HEIGHT = (k : ℚ) - h / PAGE_HEIGHT := by
    have hs' : s = (k : ℚ) * PAGE_HEIGHT - h := by linarith
    rw [hs', sub_div, mul_div_cancel_right₀ _ hP.ne']
  have hstart : ⌊s / PAGE_HEIGHT⌋ = k - 1 := by
    rw [Int.floor_eq_iff, hsP]
    push_cast
    constructor <;> linarith
  have hne : ⌊s / PAGE_HEIGHT⌋ ≠ ⌊(s + h) / PAGE_HEIGHT⌋ := by
    rw [hstart, hend]; omega
  refine ⟨by rw [hstart, hend]; ring, ?_⟩
  rw [blockMargin_push hne hlt hpos.ne', hstart]
  push_cast
  linarith

/-- Witness for the amended C2 at `startY = 400`, height 650, boundary
`1 * PAGE_HEIGHT = 1050`. -/
theorem C2_witness :
    ⌊((400 : ℚ) + 650) / PAGE_HEIGHT⌋ = ⌊(400 : ℚ) / PAGE_HEIGHT⌋ + 1 ∧
      blockMargin PAGE_HEIGHT 400 650 = 650 :=
  C2_boundary_block_is_pushed 400 650 (by norm_num)
    (by norm_num [PAGE_HEIGHT]) 1 (by norm_num [PAGE_HEIGHT])

/-- C3: for every positive master-bitmap height `h` in millimetres, the
number of pages the slicer adds (the initial page plus one `addPage` per
`while (heightLeft > 0)` iteration, with 297 subtracted each round) equals
`⌈h / 297⌉`. -/
theorem C3_slicer_page_count (h : ℚ) (hpos : 0 < h) :
    (pageCount h : ℤ) = ⌈h / pageHeightMm⌉ := by
  rw [pageCount, slicerLoop_eq]
  have hstep : (h - pageHeightMm) / pageHeightMm =
      h / pageHeightMm - 1 := by
    rw [pageHeightMm]; ring
  have hceil : ⌈(h - pageHeightMm) / pageHeightMm⌉ =
      ⌈h / pageHeightMm⌉ - 1 := by
    rw [hstep]
    exact_mod_cast Int.ceil_sub_int (h / pageHeightMm) 1
  have hone : 1 ≤ ⌈h / pageHeightMm⌉ :=
    Int.ceil_pos.mpr (div_pos hpos (by norm_num [pageHeightMm]))
  rw [hceil]
  push_cast
  omega

/-- Witness for C3 at `h = 1000` mm (a 4-page document). -/
theorem C3_witness : (pageCount 1000 : ℤ) = ⌈(1000 : ℚ) / pageHeightMm⌉ :=
  C3_slicer_page_count 1000 (by norm_num)

/-- C4: on the three block heights `[400, 800, 300]` with
`PAGE_HEIGHT = 1050` the planner yields margins `[0, 650, 250]`. -/
theorem C4_end_to_end_scenario :
    smartPaginate [400, 800, 300] = [0, 650, 250] := by
  norm_num [smartPaginate, smartPaginateGo, blockMargin_def, PAGE_HEIGHT]

/-- C5: the planner is idempotent — re-running the margin decision on the
adjusted layout (each block taken at its already-pushed position, same
heights, same `PAGE_HEIGHT`) assigns zero additional margin to every
block. -/
theorem C5_planner_idempotent (hs : List ℚ) (i : ℕ) (hi : i < hs.length)
    (h0 : 0 ≤ hs.get ⟨i, hi⟩) :
    blockMargin PAGE_HEIGHT (adjStart (smartPaginate hs) hs i)
      (hs.get ⟨i, hi⟩) = 0 := by
  rw [adjStart_eq hs i hi, smartPaginate_get hs i hi]
  exact blockMargin_idem PAGE_HEIGHT_pos h0

/-- Witness for C5 at heights `[400, 800, 300]`, block 1. -/
theorem C5_witness :
    blockMargin PAGE_HEIGHT (adjStart (smartPaginate [400, 800, 300])
      [400, 800, 300] 1) (([400, 800, 300] : List ℚ).get ⟨1, by norm_num⟩)
      = 0 :=
  C5_planner_idempotent [400, 800, 300] 1 (by norm_num) (by norm_num)

/-- C6: a block at least `PAGE_HEIGHT` tall is never modified: its margin
stays 0 even when it straddles a boundary, and its adjusted start is the
bare running cursor (earlier margins plus earlier heights), so the cursor
advances only by its height. -/
theorem C6_tall_block_untouched (hs : List ℚ) (i : ℕ) (hi : i < hs.length)
    (hge : PAGE_HEIGHT ≤ hs.get ⟨i, hi⟩) :
    (smartPaginate hs).get ⟨i, by rw [smartPaginate_length]; exact hi⟩ = 0 ∧
      adjStart (smartPaginate hs) hs i =
        ((smartPaginate hs).take i).sum + (hs.take i).sum := by
  have hm := smartPaginate_get hs i hi
  have hz := hm.trans (blockMargin_tall hge)
  exact ⟨hz, by rw [adjStart_eq hs i hi, hz, add_zero]⟩

/-- Witness for C6 at heights `[500, 1200]`: block 1 spans 500–1700,
straddling the boundary at 1050, yet is left unmodified. -/
theorem C6_witness :
    (smartPaginate [500, 1200]).get ⟨1, by
        rw [smartPaginate_length]; norm_num⟩ = 0 ∧
      adjStart (smartPaginate [500, 1200]) [500, 1200] 1 =
        ((smartPaginate [500, 1200]).take 1).sum +
          (([500, 1200] : List ℚ).take 1).sum :=
  C6_tall_block_untouched [500, 1200] 1 (by norm_num)
    (by norm_num [PAGE_HEIGHT])

/-- C7: whenever the pushdown branch is taken (the block straddles a
boundary and its nonnegative height is below `PAGE_HEIGHT`), the end page
is exactly the next page (`endPage = startPage + 1`), so the unused
`spacerHeight` formula equals the applied `pushDown` formula — the two
never diverge, and a block spanning more than two pages cannot reach this
branch. -/
theorem C7_spacer_equals_pushdown (s h : ℚ) (h0 : 0 ≤ h)
    (hlt : h < PAGE_HEIGHT)
    (hcross : ⌊s / PAGE_HEIGHT⌋ ≠ ⌊(s + h) / PAGE_HEIGHT⌋) :
    ⌊(s + h) / PAGE_HEIGHT⌋ = ⌊s / PAGE_HEIGHT⌋ + 1 ∧
      spacerHeight PAGE_HEIGHT s (s + h) = pushDown PAGE_HEIGHT s := by
  have hb := floor_add_div_le_succ PAGE_HEIGHT_pos s h h0 hlt
  have he : ⌊(s + h) / PAGE_HEIGHT⌋ = ⌊s / PAGE_HEIGHT⌋ + 1 := by omega
  refine ⟨he, ?_⟩
  rw [spacerHeight, pushDown, he]
  push_cast
  ring

/-- Witness for C7 at `startY = 400`, height 650 (block spans 400–1050). -/
theorem C7_witness :
    ⌊((400 : ℚ) + 650) / PAGE_HEIGHT⌋ = ⌊(400 : ℚ) / PAGE_HEIGHT⌋ + 1 ∧
      spacerHeight PAGE_HEIGHT 400 (400 + 650) = pushDown PAGE_HEIGHT 400 :=
  C7_spacer_equals_pushdown 400 650 (by norm_num)
    (by norm_num [PAGE_HEIGHT]) (by norm_num [PAGE_HEIGHT])

/-- C8, as stated, is false: the local-download fallback
(`doc.save(`${title}.pdf`)`) performs no sanitization at all, so for the
title with spaces it produces `"Srce i Krvni Sudovi.pdf"`, not the
sanitized `"Srce_i_Krvni_Sudovi.pdf"` the claim requires on both paths. -/
theorem C8_counterexample :
    fallbackFileName "Srce i Krvni Sudovi" = "Srce i Krvni Sudovi.pdf" ∧
      fallbackFileName "Srce i Krvni Sudovi" ≠ "Srce_i_Krvni_Sudovi.pdf" := by
  exact ⟨rfl, by decide⟩

/-- C8 (amended): only the share path derives its filename from the title
with whitespace runs replaced by underscores — for the title
`"Srce i Krvni Sudovi"` it produces `Srce_i_Krvni_Sudovi.pdf` — while the
local-download fallback appends `.pdf` to the raw title with no character
stripped or replaced. -/
theorem C8_filenames :
    shareFileName "Srce i Krvni Sudovi" = "Srce_i_Krvni_Sudovi.pdf" ∧
      fallbackFileName "Srce i Krvni Sudovi" = "Srce i Krvni Sudovi.pdf" :=
  ⟨rfl, rfl⟩

/-- C9: every failure thrown during PDF generation or sharing is caught by
`handleShare` and surfaced as exactly one user-facing alert with nothing
delivered, and when the render target is missing the operation logs one
`console.error` and aborts normally — independent of the capture and share
inputs, i.e. before any work begins — producing no document and no
alert. -/
theorem C9_failures_surfaced_once (hasTarget : Bool)
    (capture : Except PdfError Unit) (canShareFiles : Bool)
    (share : Except PdfError Unit) :
    ((∃ e, (generateSharePdfFlow hasTarget capture canShareFiles
        share).outcome = .error e) →
      handleShareFlow (generateSharePdfFlow hasTarget capture canShareFiles
        share) = ⟨1, none⟩) ∧
    (hasTarget = false →
      (generateSharePdfFlow hasTarget capture canShareFiles
          share).outcome = .ok none ∧
        (generateSharePdfFlow hasTarget capture canShareFiles
          share).consoleErrors = 1 ∧
        handleShareFlow (generateSharePdfFlow hasTarget capture canShareFiles
          share) = ⟨0, none⟩) := by
  cases hasTarget <;> cases capture <;> cases canShareFiles <;>
    cases share <;> simp [generateSharePdfFlow, handleShareFlow]

/-- Witness for C9: a capture failure yields exactly one alert and no
delivered document. -/
theorem C9_witness :
    handleShareFlow (generateSharePdfFlow true (.error .captureFailed)
      true (.ok ())) = ⟨1, none⟩ :=
  (C9_failures_surfaced_once true (.error .captureFailed) true (.ok ())).1
    ⟨.captureFailed, rfl⟩

/-- C10: every margin the planner assigns is nonnegative (a block is never
moved up), and a nonzero margin is strictly positive, at most
`PAGE_HEIGHT`, and leaves the block's adjusted start exactly on a page
boundary (an integer multiple of `PAGE_HEIGHT`). -/
theorem C10_pushdown_invariants (hs : List ℚ) (i : ℕ)
    (hi : i < hs.length) :
    0 ≤ (smartPaginate hs).get ⟨i, by rw [smartPaginate_length]; exact hi⟩ ∧
      ((smartPaginate hs).get ⟨i, by rw [smartPaginate_length]; exact hi⟩
          ≠ 0 →
        0 < (smartPaginate hs).get
            ⟨i, by rw [smartPaginate_length]; exact hi⟩ ∧
          (smartPaginate hs).get
            ⟨i, by rw [smartPaginate_length]; exact hi⟩ ≤ PAGE_HEIGHT ∧
          ∃ k : ℤ, adjStart (smartPaginate hs) hs i =
            (k : ℚ) * PAGE_HEIGHT) := by
  have hm := smartPaginate_get hs i hi
  rw [adjStart_eq hs i hi, hm]
  exact blockMargin_bounds PAGE_HEIGHT_pos

/-- Witness for C10 at heights `[400, 800, 300]`, block 1. -/
theorem C10_witness :
    0 ≤ (smartPaginate [400, 800, 300]).get ⟨1, by
        rw [smartPaginate_length]; norm_num⟩ ∧
      ((smartPaginate [400, 800, 300]).get ⟨1, by
          rw [smartPaginate_length]; norm_num⟩ ≠ 0 →
        0 < (smartPaginate [400, 800, 300]).get ⟨1, by
            rw [smartPaginate_length]; norm_num⟩ ∧
          (smartPaginate [400, 800, 300]).get ⟨1, by
            rw [smartPaginate_length]; norm_num⟩ ≤ PAGE_HEIGHT ∧
          ∃ k : ℤ, adjStart (smartPaginate [400, 800, 300])
            [400, 800, 300] 1 = (k : ℚ) * PAGE_HEIGHT) :=
  C10_pushdown_invariants [400, 800, 300] 1 (by norm_num)

end MedPdf
